import Mathlib

/-!
# Verification of the cargo buildpack's workspace build orchestrator

Shallow embedding of the argument builder, workspace resolver, cache
pruner, timestamp preserver and install orchestration of the
paketo-community/cargo buildpack (`runner/runners.go`, `cargo/cargo.go`,
`mtimes/mtimes.go`), with theorems checking the specification's claims.

Conventions of the embedding:
* user-supplied install arguments enter the Go code as one raw string and
  are tokenized by the external `shellwords` library; the embedding works
  on the resulting token list (`List String`), since the tokenizer is an
  external collaborator;
* Go's `strings.HasPrefix` is modelled character-wise on `String.data`
  (`goHasPfx`), Go's `strings.TrimSpace` as `goTrimSpace`, Go's
  `strings.Split` as `goSplit`; all are executable;
* filesystem effects (`os.ReadDir`, `os.RemoveAll`, `os.Chtimes`,
  `filepath.WalkDir`) are modelled on explicit in-memory structures, with
  the walk order / directory listing given as a list.
-/

namespace CargoBp

/-- Go `strings.HasPrefix pre s`, character-wise on the string data. -/
def goHasPfx (s pre : String) : Bool :=
  pre.data.isPrefixOf s.data

/-- One Go whitespace test (`unicode.IsSpace` restricted to the ASCII
space characters that matter for trimming argument/member names). -/
def goIsSpace (c : Char) : Bool :=
  c = ' ' ∨ c = '\t' ∨ c = '\n' ∨ c = '\r'

/-- Drop whitespace from both ends of a character list (the helper
behind Go `strings.TrimSpace`). -/
def trimCharList (l : List Char) : List Char :=
  ((l.dropWhile goIsSpace).reverse.dropWhile goIsSpace).reverse

/-- Go `strings.TrimSpace`, dropping whitespace from both ends. -/
def goTrimSpace (s : String) : String :=
  ⟨trimCharList s.data⟩

/-- Split a character list at every occurrence of the separator
character (the helper behind Go `strings.Split` for a one-char sep). -/
def splitChar (sep : Char) : List Char → List (List Char)
  | [] => [[]]
  | c :: cs =>
    let rest := splitChar sep cs
    if c = sep then
      [] :: rest
    else
      match rest with
      | [] => [[c]]
      | r :: rs => (c :: r) :: rs

/-- Go `strings.Split s sep` for a single-character separator. -/
def goSplit (s : String) (sep : Char) : List String :=
  (splitChar sep s.data).map fun l => ⟨l⟩

/-- `runner.FilterInstallArgs`' loop: walks the tokens with the
`skipNext` flag, dropping `--root`/`--color` (and the token after the
bare form) and their `=value` forms. -/
def filterLoop : Bool → List String → List String
  | _, [] => []
  | true, _ :: rest => filterLoop false rest
  | false, arg :: rest =>
    if arg = "--root" ∨ arg = "--color" then
      filterLoop true rest
    else if goHasPfx arg "--root=" ∨ goHasPfx arg "--color=" then
      filterLoop false rest
    else
      arg :: filterLoop false rest

/-- `runner.FilterInstallArgs` on the already-tokenized argument words
(the `shellwords.Parse` tokenizer is an external collaborator). -/
def FilterInstallArgs (argwords : List String) : List String :=
  filterLoop false argwords

/-- A token that `runner.AddDefaultPath` treats as an already-set path
flag: exactly `--path` or prefixed by `--path=`. -/
def isPathToken (arg : String) : Bool :=
  arg = "--path" || goHasPfx arg "--path="

/-- `runner.AddDefaultPath`: appends `--path=<defaultMemberPath>` unless
some token is `--path` or starts with `--path=`. -/
def AddDefaultPath (args : List String) (defaultMemberPath : String) : List String :=
  if args.any isPathToken then args
  else args ++ ["--path=" ++ defaultMemberPath]

/-- `libpak.TinyStackID`, the stack id of the Paketo Tiny stack. -/
def TinyStackID : String := "io.paketo.stacks.tiny"

/-- A token that `runner.AddDefaultTargetForTiny` treats as an
already-set target flag: exactly `--target` or prefixed by `--target=`. -/
def isTargetToken (arg : String) : Bool :=
  arg = "--target" || goHasPfx arg "--target="

/-- `runner.AddDefaultTargetForTiny`: on the Tiny stack appends
`--target=x86_64-unknown-linux-musl` unless a target flag is present;
on any other stack returns the arguments unchanged. -/
def AddDefaultTargetForTiny (args : List String) (stack : String) : List String :=
  if stack ≠ TinyStackID then args
  else if args.any isTargetToken then args
  else args ++ ["--target=x86_64-unknown-linux-musl"]

/-- `runner.CargoRunner.BuildArgs`: `install`, then the filtered user
arguments, then `--color=never` and `--root=<layer>`, then the default
path when absent, then the Tiny default target when applicable.
`cargoInstallArgs` is the token list produced by the tokenizer. -/
def BuildArgs (cargoInstallArgs : List String) (destLayerPath : String)
    (defaultMemberPath : String) (stack : String) : List String :=
  let envArgs := FilterInstallArgs cargoInstallArgs
  let args := ["install"] ++ envArgs ++ ["--color=never", "--root=" ++ destLayerPath]
  let args := AddDefaultPath args defaultMemberPath
  AddDefaultTargetForTiny args stack

example : BuildArgs [] "/layers/cargo" "." "io.buildpacks.stacks.bionic" =
    ["install", "--color=never", "--root=/layers/cargo", "--path=."] := by decide

example : FilterInstallArgs ["--root", "--path=/x"] = [] := by decide

example : goSplit "a, b" ',' = ["a", " b"] := by decide

example : goTrimSpace "  a b " = "a b" := by decide

/-- Go `strings.HasSuffix`. -/
def goHasSfx (s suf : String) : Bool :=
  suf.data.isSuffixOf s.data

/-- Go `strings.TrimPrefix`. -/
def goTrimPfx (s pre : String) : String :=
  if goHasPfx s pre then ⟨s.data.drop pre.data.length⟩ else s

/-- Go `strings.TrimSuffix`. -/
def goTrimSfx (s suf : String) : String :=
  if goHasSfx s suf then ⟨s.data.take (s.data.length - suf.data.length)⟩ else s

/-- Go `strings.SplitN s " " 3`: at most three parts, the last one
keeping the remaining spaces. -/
def goSplitN3Space (s : String) : List String :=
  match goSplit s ' ' with
  | a :: b :: c :: rest => [a, b, String.intercalate " " (c :: rest)]
  | parts => parts

example : goSplitN3Space "todo 1.2.0 (path+file:///w/todo)" =
    ["todo", "1.2.0", "(path+file:///w/todo)"] := by decide

/-- The `cargo metadata` project graph, as decoded by
`runner.fetchCargoMetadata`; the verified resolver operations read only
the `workspace_members` field. -/
structure Metadata where
  workspace_members : List String
deriving DecidableEq, Repr

/-- `runner.CargoRunner.makeFilterMap`, as the list of keys of the
resulting Go map: empty when no filter is configured, otherwise the raw
string (when it holds no comma) plus every trimmed comma-separated
part. -/
def makeFilterMap (cargoWorkspaceMembers : String) : List String :=
  if cargoWorkspaceMembers = "" then []
  else
    (if ¬ cargoWorkspaceMembers.data.contains ',' then [cargoWorkspaceMembers] else [])
      ++ (goSplit cargoWorkspaceMembers ',').map goTrimSpace

/-- The trimmed first space-separated part of a `workspace_members`
entry (`strings.TrimSpace(parts[0])` in `runner.WorkspaceMembers`). -/
def memberName (w : String) : String :=
  goTrimSpace ((goSplitN3Space w).getD 0 "")

/-- The location of a `workspace_members` entry: the third part with the
surrounding parentheses trimmed, fed to `url.Parse` (the URL parser is
an external collaborator, modelled as the identity on the string). -/
def parseMemberURL (w : String) : String :=
  goTrimSfx (goTrimPfx ((goSplitN3Space w).getD 2 "") "(") ")"

/-- `runner.CargoRunner.WorkspaceMembers`' selection and parsing of the
graph's `workspace_members`: keep an entry when the filter map is empty
or holds the entry's trimmed name, in graph order. -/
def WorkspaceMembers (m : Metadata) (cargoWorkspaceMembers : String) : List String :=
  let filterMap := makeFilterMap cargoWorkspaceMembers
  (m.workspace_members.filter fun w =>
      (!filterMap.isEmpty && filterMap.contains (memberName w)) || filterMap.isEmpty).map
    parseMemberURL

/-- `cargo.Cargo.IsPathSet`: whether the filtered user install arguments
contain a `--path` flag (space or equals form). -/
def IsPathSet (installArgs : List String) : Bool :=
  (FilterInstallArgs installArgs).any isPathToken

/-- The install plan of `cargo.Cargo.Contribute`: which warnings are
logged and which member paths `cargo install` is invoked with, in
order. -/
structure InstallPlan where
  warnings : List String
  invocations : List String
deriving DecidableEq, Repr

/-- The dispatch of `cargo.Cargo.Contribute` over the resolved members
(each given by its path): zero members warn and build the whole project
(member path `.`); a single member at the application path, or an
explicit user `--path`, also build once with path `.`; otherwise one
invocation per member, in resolver order. -/
def planInstall (members : List String) (isPathSet : Bool) (appPath : String) : InstallPlan :=
  if members.length = 0 then
    { warnings := ["WARNING: no members detected, trying to install with no path. This may fail."],
      invocations := ["."] }
  else if (members.length = 1 ∧ members.getD 0 "" = appPath) ∨ isPathSet = true then
    { warnings := [], invocations := ["."] }
  else
    { warnings := [], invocations := members }

/-- The sequential install loop of `cargo.Cargo.Contribute`: run the
build tool on each planned path in order, stopping at the first failure.
Returns the paths actually invoked and the first error, if any. -/
def runInstalls (exec : String → Except String Unit) : List String → List String × Option String
  | [] => ([], none)
  | p :: rest =>
    match exec p with
    | .error e => ([p], some e)
    | .ok _ =>
      let r := runInstalls exec rest
      (p :: r.1, r.2)

/-- One record of the `mtimes.json` manifest
(`mtimes.Record{Path, MTime}`); instants are opaque numeric stamps. -/
structure Record where
  Path : String
  MTime : Nat
deriving DecidableEq, Repr

/-- The walk loop of `mtimes.Preserver.Preserve`: visit the entries in
walk order; a successful stat appends the record to the already-written
file content, a stat failure aborts the walk with the error. -/
def preserveLoop : List (String × Except String Nat) → List Record → List Record × Option String
  | [], written => (written, none)
  | (p, .ok t) :: rest, written => preserveLoop rest (written ++ [⟨p, t⟩])
  | (_, .error e) :: _, written => (written, some e)

/-- `mtimes.Preserver.Preserve` on a walk given as the ordered list of
visited entries with their stat results. `os.Create` truncates the
manifest before the walk starts (the prior manifest content is the
first argument and is discarded); the JSON encoder streams each record
to the file as it is visited. Returns the manifest file's content after
the call and the returned error, if any. -/
def Preserve (_priorManifest : Option (List Record))
    (walk : List (String × Except String Nat)) : Option (List Record) × Option String :=
  let r := preserveLoop walk []
  (some r.1, r.2)

/-- `os.Chtimes` on the modelled filesystem: set the stamp of every
entry at the record's path. -/
def applyChtimes (fs : List (String × Nat)) (r : Record) : List (String × Nat) :=
  fs.map fun e => if e.1 = r.Path then (e.1, r.MTime) else e

/-- The decode loop of `mtimes.Preserver.Restore`: for each record, a
failing `os.Chtimes` (per the failure oracle) is logged and skipped,
a successful one updates the filesystem stamps. -/
def restoreLoop (chtimesFails : String → Bool) :
    List Record → List (String × Nat) → List String → List (String × Nat) × List String
  | [], fs, logs => (fs, logs)
  | r :: rest, fs, logs =>
    if chtimesFails r.Path then
      restoreLoop chtimesFails rest fs (logs ++ ["unable to restore time of file " ++ r.Path])
    else
      restoreLoop chtimesFails rest (applyChtimes fs r) logs

/-- `mtimes.Preserver.Restore`: an absent manifest logs informationally
and succeeds without touching the filesystem; otherwise every record is
applied in order (decode errors are out of the claims' scope and the
manifest is given already decoded). Returns the filesystem stamps after
the call, the logged warnings, and the returned error, if any. -/
def Restore (manifest : Option (List Record)) (chtimesFails : String → Bool)
    (fs : List (String × Nat)) : List (String × Nat) × List String × Option String :=
  match manifest with
  | none => (fs, ["File modification times not restored"], none)
  | some records =>
    let r := restoreLoop chtimesFails records fs []
    (r.1, r.2, none)

/-- A filesystem tree: a file, or a directory with named children. -/
inductive FTree where
  | file : FTree
  | dir : List (String × FTree) → FTree
deriving Repr

/-- Whether a tree node is a directory (`DirEntry.IsDir`). -/
def FTree.isDir : FTree → Bool
  | .file => false
  | .dir _ => true

/-- One pruning pass of `runner.CleanCargoHomeCache` inside a
directory: `os.RemoveAll` every child that is not a directory with a
kept name; kept children's subtrees are untouched. -/
def pruneChildren (keep : List String) : FTree → FTree
  | .file => .file
  | .dir es => .dir (es.filter fun e => e.2.isDir && keep.contains e.1)

/-- The top-level keep test of `runner.CleanCargoHomeCache`: a directory
named `bin`, `registry` or `git`. -/
def keepTop (e : String × FTree) : Bool :=
  e.2.isDir && (e.1 = "bin" || e.1 = "registry" || e.1 = "git")

/-- `runner.CargoRunner.CleanCargoHomeCache` on the cache home given as
its list of top-level entries (`none` when `$CARGO_HOME` does not
exist, which `os.IsNotExist` turns into a successful no-op, as do a
missing `registry` or `git` directory). Filesystem removal errors are
out of the claims' scope and modelled as always succeeding. -/
def CleanCargoHomeCache (cargoHome : Option (List (String × FTree))) :
    Except String (Option (List (String × FTree))) :=
  match cargoHome with
  | none => .ok none
  | some entries =>
    .ok (some ((entries.filter keepTop).map fun e =>
      if e.1 = "registry" then (e.1, pruneChildren ["index", "cache"] e.2)
      else if e.1 = "git" then (e.1, pruneChildren ["db"] e.2)
      else e))

/-- The fixed front of every `BuildArgs` result: `install`, the filtered
user arguments, and the two orchestrator-owned flags. -/
def buildBase (userArgs : List String) (root : String) : List String :=
  ["install"] ++ FilterInstallArgs userArgs ++ ["--color=never", "--root=" ++ root]

/-- Whether a walk entry's stat succeeded. -/
def statOk : String × Except String Nat → Bool
  | (_, .ok _) => true
  | (_, .error _) => false

/-- The manifest record of a successfully stat-ed walk entry. -/
def statRecord : String × Except String Nat → Record
  | (p, .ok t) => ⟨p, t⟩
  | (p, .error _) => ⟨p, 0⟩

/-- The first stat error of a walk, if any. -/
def firstStatError (walk : List (String × Except String Nat)) : Option String :=
  match walk.dropWhile statOk with
  | (_, .error e) :: _ => some e
  | _ => none

/-- The records of the walk entries visited before the first stat
failure. -/
def okStatRecords (walk : List (String × Except String Nat)) : List Record :=
  (walk.takeWhile statOk).map statRecord

/-- The children of a tree node (empty for a file). -/
def FTree.children : FTree → List (String × FTree)
  | .file => []
  | .dir es => es

/-- The pruned entry list produced by a successful
`CleanCargoHomeCache` run on an existing cache home. -/
def cleanedHome (es : List (String × FTree)) : List (String × FTree) :=
  match CleanCargoHomeCache (some es) with
  | .ok (some res) => res
  | _ => []

/-! ## Helper lemmas -/

theorem goHasPfx_iff (s pre : String) : goHasPfx s pre = true ↔ pre.data <+: s.data := by
  simp [goHasPfx, List.isPrefixOf_iff_prefix]

theorem data_append (s t : String) : (s ++ t).data = s.data ++ t.data := rfl

theorem filterLoop_sublist (args : List String) : ∀ b, (filterLoop b args).Sublist args := by
  induction args with
  | nil => intro b; cases b <;> exact List.Sublist.refl _
  | cons a rest ih =>
    intro b
    cases b with
    | true =>
      show (filterLoop false rest).Sublist (a :: rest)
      exact (ih false).cons a
    | false =>
      show (filterLoop false (a :: rest)).Sublist (a :: rest)
      simp only [filterLoop]
      split
      · exact (ih true).cons a
      · split
        · exact (ih false).cons a
        · exact (ih false).cons₂ a

theorem filterLoop_not_root_color (args : List String) : ∀ b t, t ∈ filterLoop b args →
    ¬(t = "--root" ∨ t = "--color" ∨ goHasPfx t "--root=" = true ∨ goHasPfx t "--color=" = true) := by
  induction args with
  | nil => intro b t ht; cases b <;> simp [filterLoop] at ht
  | cons a rest ih =>
    intro b t ht
    cases b with
    | true => exact ih false t ht
    | false =>
      simp only [filterLoop] at ht
      split at ht
      · exact ih true t ht
      · split at ht
        · exact ih false t ht
        · rcases List.mem_cons.mp ht with rfl | hmem
          · rename_i h1 h2
            intro hcon
            rcases hcon with hc | hc | hc | hc
            · exact h1 (Or.inl hc)
            · exact h1 (Or.inr hc)
            · exact h2 (Or.inl hc)
            · exact h2 (Or.inr hc)
          · exact ih false t hmem

/-! ## C3 -/

/-- C3: for every successfully tokenized argument list, `FilterInstallArgs`
returns no token equal to `--root` or `--color` and none beginning with
`--root=` or `--color=`; a space-separated flag consumes the following
value token as well; the relative order of the remaining tokens is
preserved (the result is a sublist of the input). -/
theorem filterInstallArgs_strips_owned_flags (args : List String) :
    (∀ t ∈ FilterInstallArgs args,
      ¬(t = "--root" ∨ t = "--color" ∨ goHasPfx t "--root=" = true ∨ goHasPfx t "--color=" = true)) ∧
    (FilterInstallArgs args).Sublist args ∧
    (∀ v rest, FilterInstallArgs ("--root" :: v :: rest) = FilterInstallArgs rest) ∧
    (∀ v rest, FilterInstallArgs ("--color" :: v :: rest) = FilterInstallArgs rest) := by
  refine ⟨fun t ht => filterLoop_not_root_color args false t ht,
    filterLoop_sublist args false, ?_, ?_⟩
  · intro v rest
    simp [FilterInstallArgs, filterLoop]
  · intro v rest
    simp [FilterInstallArgs, filterLoop]

/-- Witness for C3: the filter applied to a concrete token list keeps
only the non-owned token, and that surviving token triggers none of the
stripped patterns. -/
theorem filterInstallArgs_strips_owned_flags_witness :
    FilterInstallArgs ["--color=always", "--root=blah", "--root", "blah", "--color", "never",
        "--bar=baz"] = ["--bar=baz"] ∧
    ¬("--bar=baz" = "--root" ∨ "--bar=baz" = "--color" ∨
      goHasPfx "--bar=baz" "--root=" = true ∨ goHasPfx "--bar=baz" "--color=" = true) := by
  constructor
  · decide
  · exact (filterInstallArgs_strips_owned_flags
      ["--color=always", "--root=blah", "--root", "blah", "--color", "never", "--bar=baz"]).1
      "--bar=baz" (by decide)

/-! ## C1 -/

theorem addDefaultPath_eq_or (args : List String) (dp : String) :
    AddDefaultPath args dp = args ∨ AddDefaultPath args dp = args ++ ["--path=" ++ dp] := by
  unfold AddDefaultPath
  split
  · exact Or.inl rfl
  · exact Or.inr rfl

theorem addDefaultTargetForTiny_eq_or (args : List String) (stack : String) :
    AddDefaultTargetForTiny args stack = args ∨
    AddDefaultTargetForTiny args stack = args ++ ["--target=x86_64-unknown-linux-musl"] := by
  unfold AddDefaultTargetForTiny
  split
  · exact Or.inl rfl
  · split
    · exact Or.inl rfl
    · exact Or.inr rfl

theorem buildArgs_unfold (userArgs : List String) (root dp stack : String) :
    BuildArgs userArgs root dp stack =
      AddDefaultTargetForTiny
        (AddDefaultPath
          (["install"] ++ FilterInstallArgs userArgs ++ ["--color=never", "--root=" ++ root]) dp)
        stack := rfl

/-- C1 counterexample: with no user arguments the default `--path` token
is appended after the `--root` flag, so the orchestrator-owned flags are
not the final two tokens of the build-tool argument list. -/
theorem buildArgs_flag_order_counterexample :
    BuildArgs [] "/layers/cargo" "." "io.buildpacks.stacks.jammy" =
      ["install", "--color=never", "--root=/layers/cargo", "--path=."] ∧
    (BuildArgs [] "/layers/cargo" "." "io.buildpacks.stacks.jammy").getLast? ≠
      some "--root=/layers/cargo" := by decide

/-- C1 amended: `BuildArgs` returns `install`, then the filtered user
arguments, then `--color=never` and `--root=<outputRoot>` — the two
orchestrator-owned flags come after every user-supplied token — and then
a possibly-empty tail made of the default `--path` token followed by the
Tiny default `--target` token. -/
theorem buildArgs_layout (userArgs : List String) (root dp stack : String) :
    ∃ t1 t2,
      BuildArgs userArgs root dp stack =
        ["install"] ++ FilterInstallArgs userArgs ++ ["--color=never", "--root=" ++ root]
          ++ t1 ++ t2 ∧
      (t1 = [] ∨ t1 = ["--path=" ++ dp]) ∧
      (t2 = [] ∨ t2 = ["--target=x86_64-unknown-linux-musl"]) := by
  rw [buildArgs_unfold]
  rcases addDefaultPath_eq_or
      (["install"] ++ FilterInstallArgs userArgs ++ ["--color=never", "--root=" ++ root]) dp
    with h1 | h1 <;>
    rcases addDefaultTargetForTiny_eq_or
        (AddDefaultPath
          (["install"] ++ FilterInstallArgs userArgs ++ ["--color=never", "--root=" ++ root]) dp)
        stack
      with h2 | h2
  · exact ⟨[], [], by rw [h2, h1]; try simp, Or.inl rfl, Or.inl rfl⟩
  · exact ⟨[], ["--target=x86_64-unknown-linux-musl"], by rw [h2, h1]; try simp, Or.inl rfl,
      Or.inr rfl⟩
  · exact ⟨["--path=" ++ dp], [], by rw [h2, h1]; try simp, Or.inr rfl, Or.inl rfl⟩
  · exact ⟨["--path=" ++ dp], ["--target=x86_64-unknown-linux-musl"], by rw [h2, h1]; try simp,
      Or.inr rfl, Or.inr rfl⟩

/-! ## Flag-token lemmas -/

theorem isPathToken_install : isPathToken "install" = false := by decide

theorem isPathToken_colornever : isPathToken "--color=never" = false := by decide

theorem isPathToken_musl : isPathToken "--target=x86_64-unknown-linux-musl" = false := by decide

theorem isPathToken_root_value (root : String) : isPathToken ("--root=" ++ root) = false := by
  have h1 : ¬ ("--root=" ++ root) = "--path" := by
    intro h
    rw [String.ext_iff, data_append] at h
    simp at h
  have h2 : goHasPfx ("--root=" ++ root) "--path=" = false := by
    rw [Bool.eq_false_iff]
    intro h
    rw [goHasPfx_iff, data_append] at h
    simp [List.cons_prefix_cons] at h
  simp [isPathToken, h1, h2]

theorem isPathToken_path_value (dp : String) : isPathToken ("--path=" ++ dp) = true := by
  have h : goHasPfx ("--path=" ++ dp) "--path=" = true := by
    rw [goHasPfx_iff, data_append]
    exact List.prefix_append _ _
  simp [isPathToken, h]

theorem isTargetToken_install : isTargetToken "install" = false := by decide

theorem isTargetToken_colornever : isTargetToken "--color=never" = false := by decide

theorem isTargetToken_root_value (root : String) : isTargetToken ("--root=" ++ root) = false := by
  have h1 : ¬ ("--root=" ++ root) = "--target" := by
    intro h
    rw [String.ext_iff, data_append] at h
    simp at h
  have h2 : goHasPfx ("--root=" ++ root) "--target=" = false := by
    rw [Bool.eq_false_iff]
    intro h
    rw [goHasPfx_iff, data_append] at h
    simp [List.cons_prefix_cons] at h
  simp [isTargetToken, h1, h2]

theorem isTargetToken_path_value (dp : String) : isTargetToken ("--path=" ++ dp) = false := by
  have h1 : ¬ ("--path=" ++ dp) = "--target" := by
    intro h
    rw [String.ext_iff, data_append] at h
    simp at h
  have h2 : goHasPfx ("--path=" ++ dp) "--target=" = false := by
    rw [Bool.eq_false_iff]
    intro h
    rw [goHasPfx_iff, data_append] at h
    simp [List.cons_prefix_cons] at h
  simp [isTargetToken, h1, h2]

theorem buildBase_any_path (userArgs : List String) (root : String) :
    (buildBase userArgs root).any isPathToken = (FilterInstallArgs userArgs).any isPathToken := by
  simp [buildBase, List.any_append, isPathToken_install, isPathToken_colornever,
    isPathToken_root_value]

theorem buildBase_filter_path (userArgs : List String) (root : String) :
    (buildBase userArgs root).filter isPathToken =
      (FilterInstallArgs userArgs).filter isPathToken := by
  simp [buildBase, List.filter_append, isPathToken_install, isPathToken_colornever,
    isPathToken_root_value]

theorem buildBase_any_target (userArgs : List String) (root : String) :
    (buildBase userArgs root).any isTargetToken =
      (FilterInstallArgs userArgs).any isTargetToken := by
  simp [buildBase, List.any_append, isTargetToken_install, isTargetToken_colornever,
    isTargetToken_root_value]

theorem buildArgs_eq_base (userArgs : List String) (root dp stack : String) :
    BuildArgs userArgs root dp stack =
      AddDefaultTargetForTiny (AddDefaultPath (buildBase userArgs root) dp) stack := rfl

/-! ## C4 -/

/-- C4 counterexample: in `--root --path=/x` the `--path=/x` token is
consumed as the value of the space-separated `--root`, so although a
`--path` token occurs in the user arguments, `BuildArgs` still appends
the default `--path=.`. -/
theorem buildArgs_swallowed_path_counterexample :
    ["--root", "--path=/x"].any isPathToken = true ∧
    BuildArgs ["--root", "--path=/x"] "/layers/cargo" "." "io.buildpacks.stacks.jammy" =
      ["install", "--color=never", "--root=/layers/cargo", "--path=."] := by decide

/-- C4 amended: the default-path detection applies to the filtered user
arguments. When the filtered arguments contain a `--path` token (space
or equals form) the path tokens of the built argument list are exactly
those user tokens; when they do not, the built argument list contains
exactly one path token, the appended `--path=<defaultPath>`. -/
theorem buildArgs_default_path_detection (userArgs : List String) (root dp stack : String) :
    ((FilterInstallArgs userArgs).any isPathToken = true →
      (BuildArgs userArgs root dp stack).filter isPathToken =
        (FilterInstallArgs userArgs).filter isPathToken) ∧
    ((FilterInstallArgs userArgs).any isPathToken = false →
      (BuildArgs userArgs root dp stack).filter isPathToken = ["--path=" ++ dp]) := by
  constructor
  · intro h
    have hb : (buildBase userArgs root).any isPathToken = true := by
      rw [buildBase_any_path]; exact h
    have hpath : AddDefaultPath (buildBase userArgs root) dp = buildBase userArgs root := by
      simp [AddDefaultPath, hb]
    rcases addDefaultTargetForTiny_eq_or (AddDefaultPath (buildBase userArgs root) dp) stack
      with h2 | h2
    · rw [buildArgs_eq_base, h2, hpath, buildBase_filter_path]
    · rw [buildArgs_eq_base, h2, hpath, List.filter_append, buildBase_filter_path]
      simp [isPathToken_musl]
  · intro h
    have hb : (buildBase userArgs root).any isPathToken = false := by
      rw [buildBase_any_path]; exact h
    have hpath : AddDefaultPath (buildBase userArgs root) dp =
        buildBase userArgs root ++ ["--path=" ++ dp] := by
      simp [AddDefaultPath, hb]
    have hfe : (buildBase userArgs root).filter isPathToken = [] := by
      exact List.filter_eq_nil_iff.mpr fun a ha => by
        have := List.any_eq_false.mp hb a ha
        simpa using this
    rcases addDefaultTargetForTiny_eq_or (AddDefaultPath (buildBase userArgs root) dp) stack
      with h2 | h2 <;>
      rw [buildArgs_eq_base, h2, hpath] <;>
      simp [List.filter_append, hfe, isPathToken_path_value, isPathToken_musl]

/-- Witness for C4 (amended): a user-supplied `--path=/w/app` suppresses
the default, while empty user arguments receive exactly the default
path token. -/
theorem buildArgs_default_path_detection_witness :
    (BuildArgs ["--path=/w/app"] "/l" "." "s").filter isPathToken =
      (FilterInstallArgs ["--path=/w/app"]).filter isPathToken ∧
    (BuildArgs [] "/l" "." "s").filter isPathToken = ["--path=" ++ "."] := by
  constructor
  · exact (buildArgs_default_path_detection ["--path=/w/app"] "/l" "." "s").1 (by decide)
  · exact (buildArgs_default_path_detection [] "/l" "." "s").2 (by decide)

/-! ## C10 -/

/-- C10: on the Tiny stack the argument builder appends
`--target=x86_64-unknown-linux-musl` unless a `--target` token (exact or
equals form) is already present — so for target-free filtered user
arguments the built list's final token is the musl target — and on any
other stack the argument list is returned unchanged. -/
theorem addDefaultTargetForTiny_spec (args : List String) (stack : String)
    (userArgs : List String) (root dp : String) :
    (stack ≠ TinyStackID → AddDefaultTargetForTiny args stack = args) ∧
    (args.any isTargetToken = true → AddDefaultTargetForTiny args TinyStackID = args) ∧
    (args.any isTargetToken = false →
      AddDefaultTargetForTiny args TinyStackID = args ++ ["--target=x86_64-unknown-linux-musl"]) ∧
    ((FilterInstallArgs userArgs).any isTargetToken = false →
      (BuildArgs userArgs root dp TinyStackID).getLast? =
        some "--target=x86_64-unknown-linux-musl") := by
  refine ⟨fun h => by simp [AddDefaultTargetForTiny, h], fun h => by
    simp [AddDefaultTargetForTiny, h], fun h => by simp [AddDefaultTargetForTiny, h], fun h => ?_⟩
  have hb : (buildBase userArgs root).any isTargetToken = false := by
    rw [buildBase_any_target]; exact h
  have hb2 : (AddDefaultPath (buildBase userArgs root) dp).any isTargetToken = false := by
    rcases addDefaultPath_eq_or (buildBase userArgs root) dp with hp | hp <;> rw [hp] <;>
      simp [List.any_append, hb, isTargetToken_path_value]
  rw [buildArgs_eq_base]
  have hres : AddDefaultTargetForTiny (AddDefaultPath (buildBase userArgs root) dp) TinyStackID =
      AddDefaultPath (buildBase userArgs root) dp ++ ["--target=x86_64-unknown-linux-musl"] := by
    simp [AddDefaultTargetForTiny, hb2]
  rw [hres, List.getLast?_concat]

/-- Witness for C10: a non-Tiny stack leaves the arguments unchanged; on
Tiny, an existing `--target` suppresses the default and its absence
appends the musl target, which then ends the built list. -/
theorem addDefaultTargetForTiny_spec_witness :
    AddDefaultTargetForTiny ["install"] "io.buildpacks.stacks.jammy" = ["install"] ∧
    AddDefaultTargetForTiny ["install", "--target=wasm"] TinyStackID =
      ["install", "--target=wasm"] ∧
    AddDefaultTargetForTiny ["install"] TinyStackID =
      ["install"] ++ ["--target=x86_64-unknown-linux-musl"] ∧
    (BuildArgs [] "/l" "." TinyStackID).getLast? = some "--target=x86_64-unknown-linux-musl" := by
  refine ⟨(addDefaultTargetForTiny_spec ["install"] "io.buildpacks.stacks.jammy" [] "/l" ".").1
      (by decide),
    (addDefaultTargetForTiny_spec ["install", "--target=wasm"] TinyStackID [] "/l" ".").2.1
      (by decide),
    (addDefaultTargetForTiny_spec ["install"] TinyStackID [] "/l" ".").2.2.1 (by decide),
    (addDefaultTargetForTiny_spec [] TinyStackID [] "/l" ".").2.2.2 (by decide)⟩

/-! ## C2 -/

theorem dropWhile_reverse_dropWhile_self (p : Char → Bool) (l : List Char)
    (hl : l.dropWhile p = l) :
    ((l.reverse.dropWhile p).reverse).dropWhile p = (l.reverse.dropWhile p).reverse := by
  have hpre : (l.reverse.dropWhile p).reverse <+: l := by
    have hsuf := List.dropWhile_suffix (l := l.reverse) p
    have h2 := List.reverse_prefix.mpr hsuf
    rwa [List.reverse_reverse] at h2
  rcases hC : (l.reverse.dropWhile p).reverse with _ | ⟨c, cs⟩
  · rfl
  · rw [hC] at hpre
    obtain ⟨t, ht⟩ := hpre
    have hpc : p c = false := by
      by_contra hcon
      have hpc' : p c = true := by revert hcon; cases p c <;> simp
      have hlc : l = c :: (cs ++ t) := ht.symm
      rw [hlc, List.dropWhile_cons_of_pos hpc'] at hl
      have hle := (List.dropWhile_sublist (l := cs ++ t) (p := p)).length_le
      rw [hl] at hle
      simp only [List.length_cons] at hle
      omega
    simp [List.dropWhile_cons, hpc]

theorem trimCharList_idem (l : List Char) : trimCharList (trimCharList l) = trimCharList l := by
  unfold trimCharList
  rw [dropWhile_reverse_dropWhile_self goIsSpace (l.dropWhile goIsSpace)
    (List.dropWhile_idempotent _ _)]
  rw [List.reverse_reverse, List.dropWhile_idempotent]

theorem goTrimSpace_idem (s : String) : goTrimSpace (goTrimSpace s) = goTrimSpace s := by
  apply String.ext
  show trimCharList (trimCharList s.data) = trimCharList s.data
  exact trimCharList_idem s.data

theorem splitChar_ne_nil (sep : Char) (l : List Char) : splitChar sep l ≠ [] := by
  induction l with
  | nil => simp [splitChar]
  | cons c cs ih =>
    simp only [splitChar]
    split
    · simp
    · split
      · simp
      · simp

theorem splitChar_no_sep (sep : Char) (l : List Char) (h : sep ∉ l) :
    splitChar sep l = [l] := by
  induction l with
  | nil => rfl
  | cons c cs ih =>
    have hc : ¬ c = sep := fun hcc => h (hcc ▸ List.mem_cons_self c cs)
    have hcs : sep ∉ cs := fun hm => h (List.mem_cons_of_mem c hm)
    simp only [splitChar, ih hcs]
    rw [if_neg hc]

theorem goSplit_no_sep (s : String) (sep : Char) (h : ¬ s.data.contains sep = true) :
    goSplit s sep = [s] := by
  unfold goSplit
  rw [splitChar_no_sep sep s.data (fun hm => h (List.elem_iff.mpr hm))]
  rfl

theorem makeFilterMap_contains_trimmed (f : String) (hf : f ≠ "") (n : String)
    (hn : goTrimSpace n = n) :
    (makeFilterMap f).contains n = ((goSplit f ',').map goTrimSpace).contains n := by
  unfold makeFilterMap
  rw [if_neg hf]
  by_cases hc : f.data.contains ',' = true
  · rw [if_neg (not_not_intro hc), List.nil_append]
  · rw [if_pos hc, goSplit_no_sep f ',' hc]
    rcases eq_or_ne n f with rfl | hne
    · show ([n] ++ [goTrimSpace n]).contains n = ([goTrimSpace n]).contains n
      rw [hn]
      simp
    · show ([f] ++ [goTrimSpace f]).contains n = ([goTrimSpace f]).contains n
      rw [Bool.eq_iff_iff, List.elem_iff, List.elem_iff]
      simp [hne]

/-- C2: with an empty filter the resolver returns every entry of the
graph's `workspace_members`, parsed, in graph order; with a non-empty
comma-separated filter it returns exactly the members whose trimmed name
is among the trimmed comma-separated filter parts, still in graph order
(the filter determines inclusion only, never order, since the graph list
is filtered in place). -/
theorem workspaceMembers_resolution (m : Metadata) (f : String) :
    WorkspaceMembers m "" = m.workspace_members.map parseMemberURL ∧
    (f ≠ "" → WorkspaceMembers m f =
      (m.workspace_members.filter fun w =>
        ((goSplit f ',').map goTrimSpace).contains (memberName w)).map parseMemberURL) := by
  constructor
  · simp [WorkspaceMembers, makeFilterMap]
  · intro hf
    show (m.workspace_members.filter fun w =>
        (!(makeFilterMap f).isEmpty && (makeFilterMap f).contains (memberName w))
          || (makeFilterMap f).isEmpty).map parseMemberURL = _
    congr 1
    apply List.filter_congr
    intro w _
    have hne : makeFilterMap f ≠ [] := by
      unfold makeFilterMap
      rw [if_neg hf]
      intro hcon
      rcases List.append_eq_nil.mp hcon with ⟨_, h2⟩
      have h3 : goSplit f ',' = [] := List.map_eq_nil_iff.mp h2
      exact splitChar_ne_nil ',' f.data (List.map_eq_nil_iff.mp h3)
    have hie : (makeFilterMap f).isEmpty = false := List.isEmpty_eq_false.mpr hne
    rw [hie]
    simp only [Bool.not_false, Bool.true_and, Bool.or_false]
    exact makeFilterMap_contains_trimmed f hf (memberName w) (goTrimSpace_idem _)

/-- Witness for C2: a three-member graph filtered with `"a, b"` keeps
members `b` and `a` in graph order (`b` first), dropping `c`. -/
theorem workspaceMembers_resolution_witness :
    WorkspaceMembers ⟨["b 1.0.0 (path+file:///w/b)", "a 2.0.0 (path+file:///w/a)",
        "c 3.0.0 (path+file:///w/c)"]⟩ "a, b" =
      (List.filter (fun w => ((goSplit "a, b" ',').map goTrimSpace).contains (memberName w))
        ["b 1.0.0 (path+file:///w/b)", "a 2.0.0 (path+file:///w/a)",
          "c 3.0.0 (path+file:///w/c)"]).map parseMemberURL ∧
    WorkspaceMembers ⟨["b 1.0.0 (path+file:///w/b)", "a 2.0.0 (path+file:///w/a)",
        "c 3.0.0 (path+file:///w/c)"]⟩ "a, b" =
      ["path+file:///w/b", "path+file:///w/a"] := by
  refine ⟨(workspaceMembers_resolution ⟨["b 1.0.0 (path+file:///w/b)",
    "a 2.0.0 (path+file:///w/a)", "c 3.0.0 (path+file:///w/c)"]⟩ "a, b").2 (by decide), by decide⟩

/-! ## C5 and C6 -/

theorem runInstalls_all_ok (exec : String → Except String Unit) (paths : List String)
    (h : ∀ p ∈ paths, exec p = .ok ()) : runInstalls exec paths = (paths, none) := by
  induction paths with
  | nil => rfl
  | cons p rest ih =>
    have hp := h p (List.mem_cons_self p rest)
    simp [runInstalls, hp, ih fun q hq => h q (List.mem_cons_of_mem p hq)]

theorem runInstalls_first_error (exec : String → Except String Unit) (pre : List String)
    (p : String) (post : List String) (e : String) (hpre : ∀ q ∈ pre, exec q = .ok ())
    (hp : exec p = .error e) : runInstalls exec (pre ++ p :: post) = (pre ++ [p], some e) := by
  induction pre with
  | nil => simp [runInstalls, hp]
  | cons q qre ih =>
    have hq := hpre q (List.mem_cons_self q qre)
    simp [runInstalls, hq, ih fun r hr => hpre r (List.mem_cons_of_mem q hr)]

/-- C5: with more than one resolved member and no explicit user `--path`,
the orchestrator plans exactly one invocation per member, with that
member's own path, in resolver order, with no warning; the sequential
install loop runs them in order, visiting every member when all succeed,
and stopping at the first failing member, never invoking the members
after it. -/
theorem contribute_multi_member (members : List String) (appPath : String)
    (exec : String → Except String Unit) (h : 1 < members.length) :
    (planInstall members false appPath).invocations = members ∧
    (planInstall members false appPath).warnings = [] ∧
    ((∀ p ∈ members, exec p = .ok ()) → runInstalls exec members = (members, none)) ∧
    (∀ pre p post e, members = pre ++ p :: post → (∀ q ∈ pre, exec q = .ok ()) →
      exec p = .error e → runInstalls exec members = (pre ++ [p], some e)) := by
  have h0 : ¬ members.length = 0 := by omega
  have h1 : ¬ ((members.length = 1 ∧ members.getD 0 "" = appPath) ∨ false = true) := by
    rintro (⟨hl, _⟩ | hfalse)
    · omega
    · simp at hfalse
  have hplan : planInstall members false appPath = { warnings := [], invocations := members } := by
    unfold planInstall
    rw [if_neg h0, if_neg h1]
  refine ⟨by rw [hplan], by rw [hplan],
    fun hok => runInstalls_all_ok exec members hok, fun pre p post e hm hpre hp => ?_⟩
  rw [hm]
  exact runInstalls_first_error exec pre p post e hpre hp

/-- Witness for C5: three members, the second one failing — the plan
lists all three paths, and the loop invokes only the first two before
aborting with the second member's error. -/
theorem contribute_multi_member_witness :
    (planInstall ["/w/a", "/w/b", "/w/c"] false "/w").invocations = ["/w/a", "/w/b", "/w/c"] ∧
    runInstalls (fun p => if p = "/w/b" then Except.error "boom" else Except.ok ())
      ["/w/a", "/w/b", "/w/c"] = (["/w/a", "/w/b"], some "boom") := by
  refine ⟨(contribute_multi_member ["/w/a", "/w/b", "/w/c"] "/w"
    (fun p => if p = "/w/b" then Except.error "boom" else Except.ok ()) (by decide)).1, ?_⟩
  have h := (contribute_multi_member ["/w/a", "/w/b", "/w/c"] "/w"
    (fun p => if p = "/w/b" then Except.error "boom" else Except.ok ()) (by decide)).2.2.2
    ["/w/a"] "/w/b" ["/w/c"] "boom" rfl
    (by
      intro q hq
      rw [List.mem_singleton] at hq
      subst hq
      rfl)
    (by rfl)
  simpa using h

/-- C6: with zero resolved members the orchestrator does not fail: it
plans the zero-member warning and exactly one invocation for the whole
project (member path `.`), and that install phase returns an error
exactly when the single invocation itself fails. -/
theorem contribute_zero_members (appPath : String) (isPathSet : Bool)
    (exec : String → Except String Unit) :
    (planInstall [] isPathSet appPath).invocations = ["."] ∧
    (planInstall [] isPathSet appPath).warnings =
      ["WARNING: no members detected, trying to install with no path. This may fail."] ∧
    ((runInstalls exec ["."]).2 = none ↔ exec "." = .ok ()) ∧
    (∀ e, exec "." = .error e → runInstalls exec ["."] = (["."], some e)) := by
  refine ⟨rfl, rfl, ?_, ?_⟩
  · cases hx : exec "." with
    | ok u => cases u; simp [runInstalls, hx]
    | error e => simp [runInstalls, hx]
  · intro e he
    simp [runInstalls, he]

/-- Witness for C6: the zero-member plan builds the whole project, and a
failing single invocation is the error the phase reports. -/
theorem contribute_zero_members_witness :
    (planInstall [] true "/w").invocations = ["."] ∧
    runInstalls (fun _ => Except.error "no binaries") ["."] = (["."], some "no binaries") := by
  refine ⟨(contribute_zero_members "/w" true fun _ => Except.error "no binaries").1,
    (contribute_zero_members "/w" true fun _ => Except.error "no binaries").2.2.2
      "no binaries" rfl⟩

/-! ## C7 -/

/-- C7 counterexample: a walk whose second entry fails to stat returns
an error, yet the manifest file is in place and holds the first entry's
record — a partial manifest, neither the prior manifest nor a complete
one. -/
theorem preserve_partial_manifest_counterexample :
    (Preserve (some [⟨"/cache/old", 11⟩])
      [("/cache", Except.ok 5), ("/cache/a", Except.error "permission denied")]).2 =
        some "permission denied" ∧
    (Preserve (some [⟨"/cache/old", 11⟩])
      [("/cache", Except.ok 5), ("/cache/a", Except.error "permission denied")]).1 =
        some [⟨"/cache", 5⟩] := by decide

theorem preserveLoop_spec (walk : List (String × Except String Nat)) : ∀ acc,
    preserveLoop walk acc = (acc ++ okStatRecords walk, firstStatError walk) := by
  induction walk with
  | nil => intro acc; simp [preserveLoop, okStatRecords, firstStatError]
  | cons pw rest ih =>
    intro acc
    rcases pw with ⟨p, res⟩
    cases res with
    | ok t =>
      simp only [preserveLoop, okStatRecords, firstStatError, List.takeWhile_cons,
        List.dropWhile_cons, statOk, statRecord, if_pos, List.map_cons, ih]
      simp [okStatRecords, firstStatError]
    | error e =>
      simp [preserveLoop, okStatRecords, firstStatError, List.takeWhile_cons,
        List.dropWhile_cons, statOk]

/-- C7 amended: `Preserve` returns the walk's first stat error (none on
a fully successful walk), and the manifest file afterwards holds exactly
the records of the entries visited before the first failure, whatever the
prior manifest was — the file is truncated at the start of the walk and
written record by record, so a failing walk leaves a partial manifest in
place, and only a fully successful walk leaves the complete one. -/
theorem preserve_streams_records (prior : Option (List Record))
    (walk : List (String × Except String Nat)) :
    (Preserve prior walk).2 = firstStatError walk ∧
    (Preserve prior walk).1 = some (okStatRecords walk) := by
  unfold Preserve
  rw [preserveLoop_spec walk []]
  simp

/-! ## C8 -/

theorem restoreLoop_spec (chtimesFails : String → Bool) (records : List Record) : ∀ fs logs,
    restoreLoop chtimesFails records fs logs =
      ((records.filter fun r => !chtimesFails r.Path).foldl applyChtimes fs,
        logs ++ (records.filter fun r => chtimesFails r.Path).map
          fun r => "unable to restore time of file " ++ r.Path) := by
  induction records with
  | nil => intro fs logs; simp [restoreLoop]
  | cons r rest ih =>
    intro fs logs
    by_cases hr : chtimesFails r.Path = true
    · simp [restoreLoop, hr, ih]
    · have hr' : chtimesFails r.Path = false := by revert hr; cases chtimesFails r.Path <;> simp
      simp [restoreLoop, hr', ih]

/-- C8: restoring a root with no manifest succeeds as a no-op, logging
only the informational message and leaving every timestamp unchanged;
with a manifest present the restore never returns an error: every record
whose `Chtimes` succeeds is applied in order even when earlier records
failed, and each failing record only contributes a log line. -/
theorem restore_spec (chtimesFails : String → Bool) (fs : List (String × Nat))
    (records : List Record) :
    Restore none chtimesFails fs = (fs, ["File modification times not restored"], none) ∧
    (Restore (some records) chtimesFails fs).2.2 = none ∧
    (Restore (some records) chtimesFails fs).1 =
      (records.filter fun r => !chtimesFails r.Path).foldl applyChtimes fs ∧
    (Restore (some records) chtimesFails fs).2.1 =
      (records.filter fun r => chtimesFails r.Path).map
        fun r => "unable to restore time of file " ++ r.Path := by
  refine ⟨rfl, rfl, ?_, ?_⟩
  · show (restoreLoop chtimesFails records fs []).1 = _
    rw [restoreLoop_spec chtimesFails records fs []]
  · show (restoreLoop chtimesFails records fs []).2 = _
    rw [restoreLoop_spec chtimesFails records fs []]
    simp

/-! ## C9 -/

theorem pruneChildren_isDir (keep : List String) (t : FTree) :
    (pruneChildren keep t).isDir = t.isDir := by
  cases t <;> rfl

theorem pruneChildren_mem (keep : List String) (t : FTree) (n : String) (c : FTree) :
    (n, c) ∈ (pruneChildren keep t).children ↔
      ((n, c) ∈ t.children ∧ c.isDir = true ∧ n ∈ keep) := by
  cases t with
  | file => simp [pruneChildren, FTree.children]
  | dir es =>
    simp only [pruneChildren, FTree.children, List.mem_filter, Bool.and_eq_true]
    constructor
    · rintro ⟨hmem, hdir, hkeep⟩
      exact ⟨hmem, hdir, List.elem_iff.mp hkeep⟩
    · rintro ⟨hmem, hdir, hkeep⟩
      exact ⟨hmem, hdir, List.elem_iff.mpr hkeep⟩

/-- C9: pruning a missing cache home succeeds as a no-op; on an existing
cache home every surviving top-level entry is a directory named `bin`,
`registry` or `git`; a `bin` directory survives with its subtree
untouched, while surviving `registry` and `git` directories keep
exactly their child directories named `index`/`cache` resp. `db`, each
kept child keeping its whole subtree (nothing at any other depth is
removed); missing `registry` or `git` entries simply contribute
nothing. -/
theorem cleanCargoHomeCache_spec (es : List (String × FTree)) :
    CleanCargoHomeCache none = .ok none ∧
    CleanCargoHomeCache (some es) = .ok (some (cleanedHome es)) ∧
    (∀ n t, (n, t) ∈ cleanedHome es →
      t.isDir = true ∧ (n = "bin" ∨ n = "registry" ∨ n = "git")) ∧
    (∀ t, ("bin", t) ∈ es → t.isDir = true → ("bin", t) ∈ cleanedHome es) ∧
    (∀ t, ("registry", t) ∈ es → t.isDir = true →
      ("registry", pruneChildren ["index", "cache"] t) ∈ cleanedHome es) ∧
    (∀ t, ("git", t) ∈ es → t.isDir = true → ("git", pruneChildren ["db"] t) ∈ cleanedHome es) ∧
    (∀ keep t n c, (n, c) ∈ (pruneChildren keep t).children ↔
      ((n, c) ∈ t.children ∧ c.isDir = true ∧ n ∈ keep)) := by
  refine ⟨rfl, rfl, ?_, ?_, ?_, ?_, fun keep t n c => pruneChildren_mem keep t n c⟩
  · intro n t h
    obtain ⟨⟨n', t'⟩, hmem, heq⟩ := List.mem_map.mp h
    obtain ⟨hes, hkeep⟩ := List.mem_filter.mp hmem
    unfold keepTop at hkeep
    rw [Bool.and_eq_true] at hkeep
    obtain ⟨hdir, hname⟩ := hkeep
    have hname2 : n' = "bin" ∨ n' = "registry" ∨ n' = "git" := by
      have h3 : (n' = "bin" ∨ n' = "registry") ∨ n' = "git" := by simpa using hname
      tauto
    by_cases h1 : n' = "registry"
    · rw [if_pos h1] at heq
      have hn : n' = n := congrArg Prod.fst heq
      have ht : pruneChildren ["index", "cache"] t' = t := congrArg Prod.snd heq
      refine ⟨?_, ?_⟩
      · rw [← ht, pruneChildren_isDir]
        exact hdir
      · rw [← hn]
        exact hname2
    · rw [if_neg h1] at heq
      by_cases h2 : n' = "git"
      · rw [if_pos h2] at heq
        have hn : n' = n := congrArg Prod.fst heq
        have ht : pruneChildren ["db"] t' = t := congrArg Prod.snd heq
        refine ⟨?_, ?_⟩
        · rw [← ht, pruneChildren_isDir]
          exact hdir
        · rw [← hn]
          exact hname2
      · rw [if_neg h2] at heq
        have hn : n' = n := congrArg Prod.fst heq
        have ht : t' = t := congrArg Prod.snd heq
        refine ⟨?_, ?_⟩
        · rw [← ht]
          exact hdir
        · rw [← hn]
          exact hname2
  · intro t hmem hdir
    refine List.mem_map.mpr ⟨("bin", t), List.mem_filter.mpr ⟨hmem, ?_⟩, ?_⟩
    · unfold keepTop
      simp [hdir]
    · simp
  · intro t hmem hdir
    refine List.mem_map.mpr ⟨("registry", t), List.mem_filter.mpr ⟨hmem, ?_⟩, ?_⟩
    · unfold keepTop
      simp [hdir]
    · simp
  · intro t hmem hdir
    refine List.mem_map.mpr ⟨("git", t), List.mem_filter.mpr ⟨hmem, ?_⟩, ?_⟩
    · unfold keepTop
      simp [hdir]
    · simp

/-- Witness for C9, on the spec's pruning fixture: the cleaned cache
home keeps `bin` untouched and `registry` pruned to `index` and `cache`
(`foo` dropped), and the pruned-children characterization applied to the
`git` directory keeps `db` and drops `bar`. -/
theorem cleanCargoHomeCache_spec_witness :
    ("bin", FTree.dir []) ∈ cleanedHome
      [("bin", FTree.dir []),
        ("registry", FTree.dir [("index", FTree.dir []), ("cache", FTree.dir []),
          ("foo", FTree.dir [])]),
        ("git", FTree.dir [("db", FTree.dir []), ("bar", FTree.dir [])]),
        ("baz", FTree.dir [])] ∧
    ("registry", pruneChildren ["index", "cache"]
        (FTree.dir [("index", FTree.dir []), ("cache", FTree.dir []), ("foo", FTree.dir [])]))
      ∈ cleanedHome
      [("bin", FTree.dir []),
        ("registry", FTree.dir [("index", FTree.dir []), ("cache", FTree.dir []),
          ("foo", FTree.dir [])]),
        ("git", FTree.dir [("db", FTree.dir []), ("bar", FTree.dir [])]),
        ("baz", FTree.dir [])] := by
  constructor
  · exact (cleanCargoHomeCache_spec
      [("bin", FTree.dir []),
        ("registry", FTree.dir [("index", FTree.dir []), ("cache", FTree.dir []),
          ("foo", FTree.dir [])]),
        ("git", FTree.dir [("db", FTree.dir []), ("bar", FTree.dir [])]),
        ("baz", FTree.dir [])]).2.2.2.1 (FTree.dir []) (List.mem_cons_self _ _) rfl
  · exact (cleanCargoHomeCache_spec
      [("bin", FTree.dir []),
        ("registry", FTree.dir [("index", FTree.dir []), ("cache", FTree.dir []),
          ("foo", FTree.dir [])]),
        ("git", FTree.dir [("db", FTree.dir []), ("bar", FTree.dir [])]),
        ("baz", FTree.dir [])]).2.2.2.2.1
      (FTree.dir [("index", FTree.dir []), ("cache", FTree.dir []), ("foo", FTree.dir [])])
      (List.mem_cons_of_mem _ (List.mem_cons_self _ _)) rfl

end CargoBp
